import Mathlib

/-!
Shallow embedding of `src/backend.js`: token normalization (`transformToken`),
key-based merge (`mergeTokens`), retry with exponential backoff
(`withExponentialBackoff`), the polling cycle's state update (`runCycle`),
and the query layer (`filterAndSortTokens`), together with theorems settling
the specification claims.

JavaScript numbers are modelled exactly: `JNum` is NaN, ±Infinity, or a finite
value carried as a rational (an idealization of IEEE doubles; all arithmetic
the program performs is exact on the inputs the claims exercise).
-/

namespace Backend

attribute [local semireducible] Rat.add Rat.sub Rat.mul Rat.inv Rat.ofScientific

/-- A JavaScript number: NaN, +Infinity, -Infinity, or a finite value. -/
inductive JNum where
  | nan
  | inf
  | negInf
  | fin (q : ℚ)
deriving DecidableEq

namespace JNum

/-- JS truthiness of a number: `0`, `-0` and `NaN` are falsy. -/
def truthy : JNum → Bool
  | nan => false
  | fin q => decide (q ≠ 0)
  | _ => true

/-- JS `+` on two numbers. -/
def add : JNum → JNum → JNum
  | nan, _ => nan
  | _, nan => nan
  | inf, negInf => nan
  | negInf, inf => nan
  | inf, _ => inf
  | _, inf => inf
  | negInf, _ => negInf
  | _, negInf => negInf
  | fin a, fin b => fin (a + b)

/-- JS `-` on two numbers (used by the sort comparator). -/
def sub : JNum → JNum → JNum
  | nan, _ => nan
  | _, nan => nan
  | inf, inf => nan
  | negInf, negInf => nan
  | inf, _ => inf
  | negInf, _ => negInf
  | _, inf => negInf
  | _, negInf => inf
  | fin a, fin b => fin (a - b)

/-- JS `Math.max` on two numbers: NaN propagates. -/
def jmax : JNum → JNum → JNum
  | nan, _ => nan
  | _, nan => nan
  | inf, _ => inf
  | _, inf => inf
  | negInf, b => b
  | a, negInf => a
  | fin a, fin b => fin (max a b)

/-- JS `>` on two numbers: any comparison with NaN is false. -/
def jgt : JNum → JNum → Bool
  | nan, _ => false
  | _, nan => false
  | inf, inf => false
  | inf, _ => true
  | _, inf => false
  | negInf, negInf => false
  | negInf, _ => false
  | _, negInf => true
  | fin a, fin b => decide (b < a)

/-- JS `>=` on two numbers: any comparison with NaN is false. -/
def jge : JNum → JNum → Bool
  | nan, _ => false
  | _, nan => false
  | inf, _ => true
  | _, inf => false
  | negInf, negInf => true
  | negInf, _ => false
  | _, negInf => true
  | fin a, fin b => decide (b ≤ a)

/-- JS `x || 0` applied to a number: falsy (0/NaN) becomes 0. -/
def orZero (n : JNum) : JNum := if n.truthy then n else fin 0

end JNum

/-- A JavaScript value as far as the backend's field accesses observe it:
`undefined`, `null`, a number, a string, or a boolean. -/
inductive JSVal where
  | undef
  | null
  | num (n : JNum)
  | str (s : String)
  | bool (b : Bool)
deriving DecidableEq

namespace JSVal

/-- JS truthiness of a value. -/
def truthy : JSVal → Bool
  | undef => false
  | null => false
  | num n => n.truthy
  | str s => decide (s ≠ "")
  | bool b => b

/-- JS `a || b`. -/
def orElse (a b : JSVal) : JSVal := if a.truthy then a else b

end JSVal

/-- Digits to a natural number in the given base (digit values already looked up). -/
def digitsVal (base : ℕ) (ds : List ℕ) : ℕ :=
  ds.foldl (fun acc d => acc * base + d) 0

/-- Value of a decimal-digit character, 0 for anything else. -/
def decDigit (c : Char) : ℕ := c.toNat - 48

/-- Whether a character is an ASCII decimal digit. -/
def isDec (c : Char) : Bool := decide (48 ≤ c.toNat ∧ c.toNat ≤ 57)

/-- Value of a hexadecimal-digit character. -/
def hexDigit (c : Char) : ℕ :=
  if 48 ≤ c.toNat ∧ c.toNat ≤ 57 then c.toNat - 48
  else if 97 ≤ c.toNat ∧ c.toNat ≤ 102 then c.toNat - 87
  else c.toNat - 55

/-- Whether a character is an ASCII hexadecimal digit. -/
def isHex (c : Char) : Bool :=
  decide ((48 ≤ c.toNat ∧ c.toNat ≤ 57) ∨ (97 ≤ c.toNat ∧ c.toNat ≤ 102) ∨
    (65 ≤ c.toNat ∧ c.toNat ≤ 70))

/-- Whether a character is JS whitespace (ASCII part). -/
def isWs (c : Char) : Bool :=
  decide (c = ' ' ∨ c = '\t' ∨ c = '\n' ∨ c = '\r' ∨ c.toNat = 11 ∨ c.toNat = 12)

/-- Exponent part of the string-number grammar: empty, or `e`/`E` with an
optionally signed digit sequence; returns the scaled mantissa. -/
def parseExp (m : ℚ) : List Char → Option ℚ
  | [] => some m
  | e :: rest =>
    if e = 'e' ∨ e = 'E' then
      let (sgn, ds) : ℤ × List Char :=
        match rest with
        | '+' :: r => (1, r)
        | '-' :: r => (-1, r)
        | r => (1, r)
      if ds ≠ [] ∧ ds.all isDec then
        some (m * (10 : ℚ) ^ (sgn * (digitsVal 10 (ds.map decDigit) : ℤ)))
      else none
    else none

/-- Unsigned decimal literal of the string-number grammar:
`digits [. digits] [exp]` or `. digits [exp]`. -/
def parseDec (cs : List Char) : Option ℚ :=
  let ip := cs.takeWhile isDec
  let r1 := cs.dropWhile isDec
  match r1 with
  | '.' :: r2 =>
    let fp := r2.takeWhile isDec
    let r3 := r2.dropWhile isDec
    if ip = [] ∧ fp = [] then none
    else
      parseExp ((digitsVal 10 (ip.map decDigit) : ℚ) +
        (digitsVal 10 (fp.map decDigit) : ℚ) / (10 : ℚ) ^ fp.length) r3
  | r1' =>
    if ip = [] then none
    else parseExp (digitsVal 10 (ip.map decDigit) : ℚ) r1'

/-- JS `ToNumber` on a string (`Number(s)`): trimmed; empty is 0; hex/octal/
binary literals; optionally signed decimal with exponent; `Infinity`;
anything else is NaN. -/
def strToNum (s : String) : JNum :=
  let cs := (s.data.dropWhile isWs).reverse.dropWhile isWs |>.reverse
  match cs with
  | [] => .fin 0
  | '0' :: 'x' :: r => if r ≠ [] ∧ r.all isHex then .fin (digitsVal 16 (r.map hexDigit)) else .nan
  | '0' :: 'X' :: r => if r ≠ [] ∧ r.all isHex then .fin (digitsVal 16 (r.map hexDigit)) else .nan
  | '0' :: 'o' :: r => if r ≠ [] ∧ r.all (fun c => decide (48 ≤ c.toNat ∧ c.toNat ≤ 55)) then
      .fin (digitsVal 8 (r.map decDigit)) else .nan
  | '0' :: 'O' :: r => if r ≠ [] ∧ r.all (fun c => decide (48 ≤ c.toNat ∧ c.toNat ≤ 55)) then
      .fin (digitsVal 8 (r.map decDigit)) else .nan
  | '0' :: 'b' :: r => if r ≠ [] ∧ r.all (fun c => decide (48 ≤ c.toNat ∧ c.toNat ≤ 49)) then
      .fin (digitsVal 2 (r.map decDigit)) else .nan
  | '0' :: 'B' :: r => if r ≠ [] ∧ r.all (fun c => decide (48 ≤ c.toNat ∧ c.toNat ≤ 49)) then
      .fin (digitsVal 2 (r.map decDigit)) else .nan
  | cs' =>
    let (sgn, rest) : ℚ × List Char :=
      match cs' with
      | '+' :: r => (1, r)
      | '-' :: r => (-1, r)
      | r => (1, r)
    if rest = "Infinity".data then (if sgn = 1 then .inf else .negInf)
    else
      match parseDec rest with
      | some q => .fin (sgn * q)
      | none => .nan

/-- JS `ToNumber` on a value. -/
def toNumber : JSVal → JNum
  | .undef => .nan
  | .null => .fin 0
  | .num n => n
  | .str s => strToNum s
  | .bool b => .fin (if b then 1 else 0)

/-- ASCII uppercase of one character (JS `toUpperCase`, ASCII range). -/
def upChar (c : Char) : Char :=
  if 97 ≤ c.toNat ∧ c.toNat ≤ 122 then Char.ofNat (c.toNat - 32) else c

/-- ASCII lowercase of one character (JS `toLowerCase`, ASCII range). -/
def lowChar (c : Char) : Char :=
  if 65 ≤ c.toNat ∧ c.toNat ≤ 90 then Char.ofNat (c.toNat + 32) else c

/-- ASCII uppercase of a string. -/
def asciiUpper (s : String) : String := ⟨s.data.map upChar⟩

/-- ASCII lowercase of a string. -/
def asciiLower (s : String) : String := ⟨s.data.map lowChar⟩

/-- JS `a || b` over optional strings, where absence and `""` are falsy
(models `t.f || fallback` for fields the program only ever treats as
strings-or-absent). -/
def strOr (a : Option String) (b : String) : String :=
  match a with
  | some s => if s = "" then b else s
  | none => b

/-- The `stats24h` sub-object of a raw record as the program reads it
(`priceChange`, `buyVolume`, `sellVolume`); a primitive-valued `stats24h` acts
like an object whose fields are all `undefined`. -/
structure Stats where
  priceChange : JSVal := .undef
  buyVolume : JSVal := .undef
  sellVolume : JSVal := .undef
deriving DecidableEq

/-- A raw upstream record, restricted to the fields `transformToken` reads.
`id`, `mint`, `name`, `icon` are modelled as string-or-absent (the program
reads them with `||` fallbacks only); `symbol` and the numeric candidates
keep full JS-value generality because the program calls `.toUpperCase()`
respectively `Number()` on them. `stats24h = none` covers `undefined`/`null`
(optional chaining short-circuits). -/
structure RawRecord where
  id : Option String := none
  mint : Option String := none
  symbol : JSVal := .undef
  name : Option String := none
  usdPrice : JSVal := .undef
  priceUsd : JSVal := .undef
  icon : Option String := none
  liquidity : JSVal := .undef
  mcap : JSVal := .undef
  stats24h : Option Stats := none
deriving DecidableEq

/-- The canonical token produced by `transformToken`. `priceChange24h` is kept
as a raw JS value because the source copies `t.stats24h?.priceChange || 0`
without numeric coercion. -/
structure Token where
  id : String := "unknown"
  symbol : String := "N/A"
  name : String := "Unknown"
  price : JNum := .fin 0
  image : String := ""
  liquidity : JNum := .fin 0
  marketCap : JNum := .fin 0
  priceChange24h : JSVal := .num (.fin 0)
  volume24h : JNum := .fin 0
deriving DecidableEq

/-- JS `(v).toUpperCase()` on the value `t.symbol || ''`: a string maps to its
uppercase, any non-string receiver throws (`none`). -/
def upperOrThrow : JSVal → Option String
  | .str s => some (asciiUpper s)
  | _ => none

/-- JS `+` on two values as used for `buyVol + sellVol`: string concatenation
if either side is a string, numeric addition otherwise. String conversion of a
finite number prints an exact integer and falls back to a fraction rendering
for non-integers (an idealization of float printing, unreachable from the
claims' inputs). -/
def jnumToStr : JNum → String
  | .nan => "NaN"
  | .inf => "Infinity"
  | .negInf => "-Infinity"
  | .fin q => if q.den = 1 then toString q.num else toString q.num ++ "/" ++ toString q.den

/-- JS `ToString` on a value. -/
def toStr : JSVal → String
  | .undef => "undefined"
  | .null => "null"
  | .num n => jnumToStr n
  | .str s => s
  | .bool b => if b then "true" else "false"

/-- JS binary `+` on two values. -/
def jsAdd (a b : JSVal) : JSVal :=
  match a, b with
  | .str sa, _ => .str (sa ++ toStr b)
  | _, .str sb => .str (toStr a ++ sb)
  | _, _ => .num ((toNumber a).add (toNumber b))

/-- Embedding of `transformToken` (src/backend.js:45-73). Returns `none` when
the JS function would throw, which happens exactly when `t.symbol || ''`
is a truthy non-string (no `toUpperCase` method). -/
def transformToken (t : RawRecord) : Option Token :=
  let id := strOr t.id (strOr t.mint "unknown")
  match upperOrThrow (JSVal.orElse t.symbol (.str "")) with
  | none => none
  | some su =>
    let symbol := if su = "" then "N/A" else su
    let name := strOr t.name "Unknown"
    let price := toNumber (JSVal.orElse t.usdPrice (JSVal.orElse t.priceUsd (.num (.fin 0))))
    let image := strOr t.icon ""
    let liquidity := toNumber (JSVal.orElse t.liquidity (.num (.fin 0)))
    let marketCap := toNumber (JSVal.orElse t.mcap (.num (.fin 0)))
    let st := t.stats24h.getD {}
    let priceChange24h := JSVal.orElse st.priceChange (.num (.fin 0))
    let buyVol := JSVal.orElse st.buyVolume (.num (.fin 0))
    let sellVol := JSVal.orElse st.sellVolume (.num (.fin 0))
    let volume24h := toNumber (jsAdd buyVol sellVol)
    some { id, symbol, name, price, image, liquidity, marketCap, priceChange24h, volume24h }

/-- A produced `Token`, viewed again as a raw record (the JS object is passed
back to `transformToken` unchanged for the idempotence claim). The token's
`price`, `image`, `marketCap`, `priceChange24h`, `volume24h` properties exist
on the object but are never read by `transformToken`, which looks for
`usdPrice`/`priceUsd`, `icon`, `mcap`, `stats24h` instead — so they are absent
from this view. -/
def tokenToRaw (tok : Token) : RawRecord where
  id := some tok.id
  mint := none
  symbol := .str tok.symbol
  name := some tok.name
  usdPrice := .undef
  priceUsd := .undef
  icon := none
  liquidity := .num tok.liquidity
  mcap := .undef
  stats24h := none

/-- Merge key as computed at src/backend.js:81:
`(tok.symbol || tok.id).toLowerCase()`. -/
def mergeKey (t : Token) : String :=
  asciiLower (if t.symbol = "" then t.id else t.symbol)

/-- Combining a later occurrence `tok` into the existing entry `ex`
(src/backend.js:90-94): conditional price replacement, summed volume,
max liquidity and market cap; all other fields keep `ex`'s values. -/
def combineTok (ex tok : Token) : Token :=
  { ex with
    price := if tok.price.truthy && (!ex.price.truthy || JNum.jgt tok.price ex.price)
      then tok.price else ex.price
    volume24h := (ex.volume24h.orZero).add (tok.volume24h.orZero)
    liquidity := JNum.jmax (ex.liquidity.orZero) (tok.liquidity.orZero)
    marketCap := JNum.jmax (ex.marketCap.orZero) (tok.marketCap.orZero) }

/-- One iteration of the merge loop over the insertion-ordered map, modelled
as an association list (JS `Map` preserves first-insertion order; updating an
existing key keeps its position). -/
def mergeStep (m : List (String × Token)) (tok : Token) : List (String × Token) :=
  let k := mergeKey tok
  if (m.lookup k).isSome then
    m.map (fun p => if p.1 = k then (p.1, combineTok p.2 tok) else p)
  else
    m ++ [(k, tok)]

/-- Embedding of `mergeTokens` (src/backend.js:77-98). -/
def mergeTokens (allTokens : List Token) : List Token :=
  (allTokens.foldl mergeStep []).map Prod.snd

/-- Keys in order of first occurrence, without repetition. -/
def firstSeen (l : List String) : List String :=
  l.foldl (fun acc k => if k ∈ acc then acc else acc ++ [k]) []

/-- The merged entry for key `k`, per the specification's words: the first
occurrence seeds the entry, later occurrences combine into it in input
order. -/
def groupFold (ts : List Token) (k : String) : Token :=
  match ts.filter (fun t => mergeKey t = k) with
  | [] => {}
  | t0 :: rest => rest.foldl combineTok t0

/-- Merge as the specification states it: one entry per distinct key, listed
in first-seen key order, each the fold of its occurrences. -/
def mergeSpec (ts : List Token) : List Token :=
  (firstSeen (ts.map mergeKey)).map (groupFold ts)

/-- The association-list state the merge loop reaches after consuming the
given input: one entry per first-seen key, holding the fold of that key's
occurrences. -/
def specState (ts : List Token) : List (String × Token) :=
  (firstSeen (ts.map mergeKey)).map (fun k => (k, groupFold ts k))

/-- Whether `pat` occurs as a contiguous subsequence (JS `String.includes`). -/
def hasInfix (pat : List Char) : List Char → Bool
  | [] => decide (pat = [])
  | c :: rest => pat.isPrefixOf (c :: rest) || hasInfix pat rest

/-- Whether an error message contains the rate-limit marker `'429'`
(src/backend.js:22). -/
def contains429 (msg : String) : Bool := hasInfix "429".data msg.data

/-- Loop body of `withExponentialBackoff` (src/backend.js:17-29). `apiCall i`
is the outcome of the attempt with 0-indexed counter `i`; `fuel` counts the
remaining iterations. Returns the overall outcome (`none` models the
undefined value returned if the loop bound is 0), the list of delays actually
slept, and the number of attempts made. -/
def backoffAux {α : Type} (apiCall : ℕ → Except String α) (baseDelay : ℚ) :
    ℕ → ℕ → List ℚ × ℕ → Option (Except String α) × List ℚ × ℕ
  | _, 0, acc => (none, acc)
  | i, fuel + 1, (ds, n) =>
    match apiCall i with
    | .ok a => (some (.ok a), (ds, n + 1))
    | .error e =>
      let mult : ℚ := if contains429 e then 5 else 2
      let delay := baseDelay * mult ^ i
      if fuel = 0 then (some (.error e), (ds, n + 1))
      else backoffAux apiCall baseDelay (i + 1) fuel (ds ++ [delay], n + 1)

/-- Embedding of `withExponentialBackoff` (src/backend.js:17-29), instrumented
with the sequence of back-off delays and the attempt count. -/
def withExponentialBackoff {α : Type} (apiCall : ℕ → Except String α)
    (maxRetries : ℕ := 3) (baseDelay : ℚ := 2000) :
    Option (Except String α) × List ℚ × ℕ :=
  backoffAux apiCall baseDelay 0 maxRetries ([], 0)

/-- Sequencing of optional values: `some` of the list iff every element is
`some` (a `none` models a raw record on which `transformToken` throws). -/
def seqOpt {α : Type} : List (Option α) → Option (List α)
  | [] => some []
  | o :: rest =>
    match o, seqOpt rest with
    | some a, some l => some (a :: l)
    | _, _ => none

/-- Accumulation loop of `startPolling` (src/backend.js:128-136): failed
windows are skipped, each successful window's records are normalized and
appended; `none` when a normalization throws (caught by the cycle's catch). -/
def collectTokens (results : List (Except String (List RawRecord))) :
    Option (List Token) :=
  results.foldl
    (fun acc r =>
      match acc, r with
      | none, _ => none
      | some l, .error _ => some l
      | some l, .ok data =>
        match seqOpt (data.map transformToken) with
        | some tl => some (l ++ tl)
        | none => none)
    (some [])

/-- State update of one polling cycle (src/backend.js:114-157): the settled
per-window results are collected; if nothing was collected (or a
normalization threw) the error is caught and the previous aggregated state is
kept, otherwise the merged collection replaces it. -/
def runCycle (results : List (Except String (List RawRecord)))
    (prev : List Token) : List Token :=
  match collectTokens results with
  | none => prev
  | some collected => if collected.isEmpty then prev else mergeTokens collected

/-- The standard base64 alphabet. -/
def b64Alphabet : List Char :=
  "ABCDEFGHIJKLMNOPQRSTUVWXYZabcdefghijklmnopqrstuvwxyz0123456789+/".data

/-- Character for a sextet value. -/
def b64Char (n : ℕ) : Char := b64Alphabet.getD n 'A'

/-- Sextet value of an alphabet character. -/
def b64Index (c : Char) : Option ℕ := b64Alphabet.indexOf? c

/-- Base64 encoding of a byte sequence (`Buffer.toString('base64')`). -/
def b64EncodeBytes : List ℕ → List Char
  | [] => []
  | [a] => [b64Char (a / 4), b64Char (a % 4 * 16), '=', '=']
  | [a, b] => [b64Char (a / 4), b64Char (a % 4 * 16 + b / 16), b64Char (b % 16 * 4), '=']
  | a :: b :: c :: rest =>
    b64Char (a / 4) :: b64Char (a % 4 * 16 + b / 16) ::
      b64Char (b % 16 * 4 + c / 64) :: b64Char (c % 64) :: b64EncodeBytes rest

/-- Base64 decoding to bytes (`Buffer.from(s, 'base64')`), strict on alphabet
and length; Node is more lenient, but a string it decodes differently is
garbage that fails the subsequent JSON parse the same way. -/
def b64DecodeBytes : List Char → Option (List ℕ)
  | [] => some []
  | c1 :: c2 :: c3 :: c4 :: rest =>
    match b64Index c1, b64Index c2 with
    | some i1, some i2 =>
      if c3 = '=' ∧ c4 = '=' ∧ rest = [] then some [i1 * 4 + i2 / 16]
      else
        match b64Index c3 with
        | some i3 =>
          if c4 = '=' ∧ rest = [] then some [i1 * 4 + i2 / 16, i2 % 16 * 16 + i3 / 4]
          else
            match b64Index c4, b64DecodeBytes rest with
            | some i4, some bs =>
              some ((i1 * 4 + i2 / 16) :: (i2 % 16 * 16 + i3 / 4) :: (i3 % 4 * 64 + i4) :: bs)
            | _, _ => none
        | none => none
    | _, _ => none
  | _ => none

/-- The JSON text `JSON.stringify(\x7b offset: n \x7d)` produces. -/
def offsetJson (n : ℤ) : String := "\x7b\"offset\":" ++ toString n ++ "\x7d"

/-- Cursor production (src/backend.js:187): base64 of the offset JSON. -/
def encodeCursor (n : ℤ) : String := ⟨b64EncodeBytes ((offsetJson n).data.map Char.toNat)⟩

/-- Parse of the offset JSON as `JSON.parse` followed by reading `.offset`:
accepts exactly an object literal with a single integer `offset` member (the
shape this codec produces); anything else fails. -/
def parseOffsetJson (s : String) : Option ℤ :=
  match s.data with
  | '\x7b' :: '"' :: 'o' :: 'f' :: 'f' :: 's' :: 'e' :: 't' :: '"' :: ':' :: rest =>
    let (neg, ds0) : Bool × List Char :=
      match rest with
      | '-' :: r => (true, r)
      | r => (false, r)
    let ds := ds0.takeWhile isDec
    let rest2 := ds0.dropWhile isDec
    if ds ≠ [] ∧ rest2 = ['\x7d'] then
      let v : ℤ := digitsVal 10 (ds.map decDigit)
      some (if neg then -v else v)
    else none
  | _ => none

/-- Cursor decoding (src/backend.js:176-181): base64 decode, JSON parse,
read `.offset`; `none` models the caught exception. -/
def decodeCursor (s : String) : Option ℤ :=
  match b64DecodeBytes s.data with
  | some bytes => parseOffsetJson ⟨bytes.map Char.ofNat⟩
  | none => none

/-- Start offset from the (already `|| null`-normalized) cursor: 0 when the
cursor is absent or anything in the decode chain failed (`decoded.offset || 0`
also maps a decoded 0 to 0, which coincides). -/
def startOf (cursor : Option String) : ℤ :=
  match cursor with
  | none => 0
  | some s =>
    match decodeCursor s with
    | some n => n
    | none => 0

/-- JS `Array.prototype.slice` with integer arguments. -/
def jsSlice {α : Type} (l : List α) (s e : ℤ) : List α :=
  let len : ℤ := l.length
  let s' := (if s < 0 then max (len + s) 0 else min s len).toNat
  let e' := (if e < 0 then max (len + e) 0 else min e len).toNat
  (l.take e').drop s'

/-- Options of `filterAndSortTokens`. `limit` is `none` for absent or `NaN`
(the route computes `parseInt(req.query.limit)`, so it is an integer or
`NaN`; `NaN`, absence and `0` are all falsy to the `|| 50` fallback). -/
structure QueryOpts where
  sortBy : Option String := none
  order : Option String := none
  limit : Option ℤ := none
  cursor : Option String := none
deriving DecidableEq

/-- Result record of `filterAndSortTokens`. -/
structure QueryResult where
  tokens : List Token
  nextCursor : Option String
  total : ℕ
  limit : ℤ
deriving DecidableEq

/-- Applied `sortBy` (`opts.sortBy || 'volume'`). -/
def effSortBy (o : QueryOpts) : String := strOr o.sortBy "volume"

/-- Applied `order` (`opts.order || 'desc'`). -/
def effOrder (o : QueryOpts) : String := strOr o.order "desc"

/-- Applied `limit` (`opts.limit || 50`). -/
def effLimit (o : QueryOpts) : ℤ :=
  match o.limit with
  | some k => if k = 0 then 50 else k
  | none => 50

/-- Applied `cursor` (`opts.cursor || null`). -/
def effCursor (o : QueryOpts) : Option String :=
  match o.cursor with
  | some s => if s = "" then none else some s
  | none => none

/-- Sort key expression (src/backend.js:170-171). -/
def sortKey (sb : String) (t : Token) : JNum :=
  if sb = "price" then t.price else t.volume24h

/-- The comparator `order === 'asc' ? aVal - bVal : bVal - aVal` as a
sort-order test: per ECMA `SortCompare`, a NaN comparator value counts
as 0, so `le a b` holds iff the comparator value is not positive. -/
def sortLe (sb ord : String) (a b : Token) : Bool :=
  match (if ord = "asc" then (sortKey sb a).sub (sortKey sb b)
    else (sortKey sb b).sub (sortKey sb a)) with
  | .nan => true
  | .inf => false
  | .negInf => true
  | .fin q => decide (q ≤ 0)

/-- The sorted, filtered sequence the query paginates over
(src/backend.js:167-173). `mergeSort` is one valid implementation of the
implementation-defined `Array.prototype.sort` (stable, comparator-consistent
whenever the comparator is consistent). -/
def sortedFiltered (ts : List Token) (o : QueryOpts) : List Token :=
  (ts.filter (fun t => JNum.jge t.price (.fin 0))).mergeSort
    (sortLe (effSortBy o) (effOrder o))

/-- Embedding of `filterAndSortTokens` (src/backend.js:161-191). -/
def filterAndSortTokens (ts : List Token) (o : QueryOpts) : QueryResult :=
  let filtered := ts.filter (fun t => JNum.jge t.price (.fin 0))
  let sorted := filtered.mergeSort (sortLe (effSortBy o) (effOrder o))
  let limit := effLimit o
  let start := startOf (effCursor o)
  { tokens := jsSlice sorted start (start + limit)
    nextCursor := if start + limit < (filtered.length : ℤ)
      then some (encodeCursor (start + limit)) else none
    total := filtered.length
    limit := limit }

/-- The condition under which `transformToken` does not throw: `t.symbol` is
falsy (so `||` replaces it by `''`) or already a string (so `toUpperCase`
exists). -/
def symbolSafe (t : RawRecord) : Bool :=
  match t.symbol with
  | .str _ => true
  | v => !v.truthy

/-- Shorthand constructor for query options. -/
def qopts (sb ord : Option String) (lim : Option ℤ) (cur : Option String) :
    QueryOpts :=
  { sortBy := sb, order := ord, limit := lim, cursor := cur }

/-- The rational carried by a finite JS number (0 for NaN/infinities). -/
def finValue : JNum → ℚ
  | .fin q => q
  | _ => 0

/-- A token whose sort key under `sb` is a finite number. -/
def finKey (sb : String) (t : Token) : Prop := ∃ q, sortKey sb t = JNum.fin q

/-! ## Helper lemmas -/

theorem strOr_ne_empty (a : Option String) (b : String) (hb : b ≠ "") :
    strOr a b ≠ "" := by
  cases a with
  | none => exact hb
  | some s =>
    simp only [strOr]
    split
    · exact hb
    · assumption

theorem collectTokens_all_errors (results : List (Except String (List RawRecord)))
    (h : ∀ r ∈ results, ∃ e, r = Except.error e) :
    collectTokens results = some [] := by
  have key : ∀ (rs : List (Except String (List RawRecord))) (l : List Token),
      (∀ r ∈ rs, ∃ e, r = Except.error e) →
      rs.foldl
        (fun acc r =>
          match acc, r with
          | none, _ => none
          | some l, .error _ => some l
          | some l, .ok data =>
            match seqOpt (data.map transformToken) with
            | some tl => some (l ++ tl)
            | none => none)
        (some l) = some l := by
    intro rs
    induction rs with
    | nil => intro l _; rfl
    | cons r rest ih =>
      intro l hall
      obtain ⟨e, he⟩ := hall r (List.mem_cons_self r rest)
      subst he
      exact ih l (fun r' hr' => hall r' (List.mem_cons_of_mem _ hr'))
  exact key results [] h

/-! ## Claim theorems -/

/-- C4: for a wrapped call failing on every attempt, the default retry policy
makes exactly 3 attempts, sleeps `baseDelay * multiplier^i` after 0-indexed
attempt `i` with multiplier 5 when the error message contains "429" and 2
otherwise, takes no delay after the final attempt, and propagates the last
attempt's error; for an always-rate-limited call the delays are exactly
`baseDelay*5^0` and `baseDelay*5^1`. -/
theorem c4_backoff (e : ℕ → String) (base : ℚ) :
    (withExponentialBackoff (fun i => (Except.error (e i) : Except String Unit)) 3 base).1 =
      some (Except.error (e 2)) ∧
    (withExponentialBackoff (fun i => (Except.error (e i) : Except String Unit)) 3 base).2.2 = 3 ∧
    (withExponentialBackoff (fun i => (Except.error (e i) : Except String Unit)) 3 base).2.1 =
      [base * (if contains429 (e 0) then (5 : ℚ) else 2) ^ 0,
       base * (if contains429 (e 1) then (5 : ℚ) else 2) ^ 1] ∧
    ((∀ i, contains429 (e i) = true) →
      (withExponentialBackoff (fun i => (Except.error (e i) : Except String Unit)) 3 base).2.1 =
        [base * 5 ^ 0, base * 5 ^ 1]) := by
  refine ⟨rfl, rfl, rfl, fun h => ?_⟩
  show [base * (if contains429 (e 0) then (5 : ℚ) else 2) ^ 0,
    base * (if contains429 (e 1) then (5 : ℚ) else 2) ^ 1] = _
  rw [h 0, h 1]
  simp

/-- Witness for C4 at a concrete always-rate-limited call. -/
theorem c4_backoff_witness :
    (withExponentialBackoff (fun _ => (Except.error "API returned 429" : Except String Unit)) 3 2000).2.1 =
      [2000 * 5 ^ 0, 2000 * 5 ^ 1] :=
  (c4_backoff (fun _ => "API returned 429") 2000).2.2.2 (fun _ => by decide)

/-- C5: when every window of a cycle fails, the aggregated state after the
cycle equals the state before it; the cycle error is absorbed by the cycle
body (`runCycle` is total and returns the previous state). -/
theorem c5_total_failure (results : List (Except String (List RawRecord)))
    (prev : List Token) (h : ∀ r ∈ results, ∃ e, r = Except.error e) :
    runCycle results prev = prev := by
  unfold runCycle
  rw [collectTokens_all_errors results h]
  rfl

/-- Witness for C5: a concrete cycle in which both windows fail leaves a
concrete previous state unchanged. -/
theorem c5_total_failure_witness :
    runCycle [Except.error "API returned 500", Except.error "No tokens"]
      [{ id := "keep" }] = [{ id := "keep" }] :=
  c5_total_failure _ _ (by
    intro r hr
    simp only [List.mem_cons, List.not_mem_nil, or_false] at hr
    rcases hr with h | h
    · exact ⟨"API returned 500", h⟩
    · exact ⟨"No tokens", h⟩)

theorem upChar_of_lower {c : Char} (h : 97 ≤ c.toNat ∧ c.toNat ≤ 122) :
    upChar c = Char.ofNat (c.toNat - 32) := by
  unfold upChar
  rw [if_pos h]

theorem upChar_not_lower {c : Char} (h : ¬(97 ≤ c.toNat ∧ c.toNat ≤ 122)) :
    upChar c = c := by
  unfold upChar
  rw [if_neg h]

theorem toNat_ofNat_of_valid {n : ℕ} (h : n.isValidChar) :
    (Char.ofNat n).toNat = n := by
  rw [Char.ofNat, dif_pos h]
  rfl

theorem upChar_idem (c : Char) : upChar (upChar c) = upChar c := by
  by_cases h : 97 ≤ c.toNat ∧ c.toNat ≤ 122
  · rw [upChar_of_lower h]
    have ht : (Char.ofNat (c.toNat - 32)).toNat = c.toNat - 32 :=
      toNat_ofNat_of_valid (Or.inl (by omega))
    exact upChar_not_lower (by rw [ht]; omega)
  · rw [upChar_not_lower h, upChar_not_lower h]

theorem asciiUpper_idem (s : String) : asciiUpper (asciiUpper s) = asciiUpper s := by
  unfold asciiUpper
  have hcomp : upChar ∘ upChar = upChar := funext upChar_idem
  simp [List.map_map, hcomp]

theorem asciiUpper_ne_empty {s : String} (h : s ≠ "") : asciiUpper s ≠ "" := by
  intro hc
  apply h
  unfold asciiUpper at hc
  have : s.data.map upChar = [] := congrArg String.data hc
  rcases List.map_eq_nil_iff.mp this with hnil
  exact congrArg String.mk (by simpa using hnil) |>.trans rfl

/-- Facts about every token `transformToken` produces: nonempty id, symbol
and name, and an uppercase-stable symbol. -/
theorem transformToken_range {raw : RawRecord} {tok : Token}
    (h : transformToken raw = some tok) :
    tok.id ≠ "" ∧ tok.symbol ≠ "" ∧ asciiUpper tok.symbol = tok.symbol ∧
      tok.name ≠ "" := by
  unfold transformToken at h
  cases hup : upperOrThrow (JSVal.orElse raw.symbol (.str "")) with
  | none => rw [hup] at h; exact absurd h (by simp)
  | some su =>
    rw [hup] at h
    simp only [Option.some.injEq] at h
    obtain ⟨s0, hs0, hsu⟩ : ∃ s0, JSVal.orElse raw.symbol (.str "") = .str s0 ∧
        su = asciiUpper s0 := by
      cases hv : JSVal.orElse raw.symbol (.str "") with
      | str s => exact ⟨s, rfl, by rw [hv] at hup; cases hup; rfl⟩
      | undef => rw [hv] at hup; cases hup
      | null => rw [hv] at hup; cases hup
      | num n => rw [hv] at hup; cases hup
      | bool b => rw [hv] at hup; cases hup
    subst h
    refine ⟨strOr_ne_empty _ _ (strOr_ne_empty _ _ (by decide)), ?_, ?_, ?_⟩
    · dsimp only
      split
      · decide
      · assumption
    · dsimp only
      split
      · decide
      · rw [hsu]; exact asciiUpper_idem s0
    · exact strOr_ne_empty _ _ (by decide)

theorem orElse_num_fallback (n : JNum) :
    toNumber (JSVal.orElse (.num n) (.num (.fin 0))) =
      if n = .nan then .fin 0 else n := by
  cases n with
  | nan => rfl
  | inf => rfl
  | negInf => rfl
  | fin q =>
    by_cases hq : q = 0
    · subst hq; rfl
    · simp [JSVal.orElse, JSVal.truthy, JNum.truthy, toNumber, hq]

/-- Renormalizing a produced token: a second `transformToken` keeps id,
symbol and name, clamps a NaN liquidity to 0 keeping it otherwise, and
resets every other field to its default, because the token object does not
carry the raw candidate field names. -/
theorem transformToken_tokenToRaw (tok : Token) (hid : tok.id ≠ "")
    (hsym : tok.symbol ≠ "") (hu : asciiUpper tok.symbol = tok.symbol)
    (hn : tok.name ≠ "") :
    transformToken (tokenToRaw tok) = some
      { id := tok.id, symbol := tok.symbol, name := tok.name,
        price := .fin 0, image := "",
        liquidity := if tok.liquidity = .nan then .fin 0 else tok.liquidity,
        marketCap := .fin 0, priceChange24h := .num (.fin 0),
        volume24h := .fin 0 } := by
  unfold transformToken tokenToRaw
  have horc : JSVal.orElse (.str tok.symbol) (.str "") = .str tok.symbol := by
    simp [JSVal.orElse, JSVal.truthy, hsym]
  rw [horc]
  simp only [upperOrThrow, hu]
  rw [if_neg hsym]
  simp only [strOr, if_neg hid, if_neg hn, Option.some.injEq]
  rw [← orElse_num_fallback tok.liquidity]
  rfl

/-- C3 counterexample: the claim says every non-numeric input resolves to 0
and never to NaN, but a record whose `usdPrice` is the (truthy, non-numeric)
string "abc" normalizes to a token whose price is NaN, not 0. -/
theorem c3_counterexample :
    transformToken { usdPrice := JSVal.str "abc" } =
      some ({ price := JNum.nan } : Token) ∧ JNum.nan ≠ JNum.fin 0 :=
  ⟨rfl, by decide⟩

/-- C3 (amended): normalization never raises provided the raw `symbol` field
is falsy or a string (a truthy non-string symbol throws in
`(t.symbol || '').toUpperCase()`); a fully absent record degrades to exactly
the documented defaults; and when all price candidates are falsy the price
falls through to 0. (A truthy non-numeric candidate instead coerces to NaN,
per the counterexample.) -/
theorem c3_amended :
    (∀ t : RawRecord, symbolSafe t = true → (transformToken t).isSome = true) ∧
    transformToken {} = some ({} : Token) ∧
    (∀ (t : RawRecord) (tok : Token), transformToken t = some tok →
      t.usdPrice.truthy = false → t.priceUsd.truthy = false →
      tok.price = .fin 0) := by
  refine ⟨?_, rfl, ?_⟩
  · intro t h
    obtain ⟨s, hs⟩ : ∃ s, JSVal.orElse t.symbol (.str "") = .str s := by
      unfold symbolSafe at h
      cases hv : t.symbol with
      | str s => exact ⟨if s = "" then "" else s, by
          simp only [JSVal.orElse, JSVal.truthy]
          split
          · simp_all
          · simp_all⟩
      | undef => exact ⟨"", rfl⟩
      | null => exact ⟨"", rfl⟩
      | num n =>
        refine ⟨"", ?_⟩
        rw [hv] at h
        simp only [JSVal.truthy, Bool.not_eq_true'] at h
        simp [JSVal.orElse, JSVal.truthy, h]
      | bool b =>
        refine ⟨"", ?_⟩
        rw [hv] at h
        simp only [JSVal.truthy, Bool.not_eq_true'] at h
        simp [JSVal.orElse, JSVal.truthy, h]
    unfold transformToken
    rw [hs]
    rfl
  · intro t tok h hu hp
    unfold transformToken at h
    cases hup : upperOrThrow (JSVal.orElse t.symbol (.str "")) with
    | none => rw [hup] at h; exact absurd h (by simp)
    | some su =>
      rw [hup] at h
      simp only [Option.some.injEq] at h
      subst h
      simp only [JSVal.orElse, hu, hp]
      rfl

/-- Witness for C3 (amended) at the empty raw record. -/
theorem c3_amended_witness :
    (transformToken ({} : RawRecord)).isSome = true ∧
    ({} : Token).price = JNum.fin 0 :=
  ⟨c3_amended.1 {} rfl, c3_amended.2.2 {} {} c3_amended.2.1 rfl rfl⟩

/-- C9 counterexample: normalization is not idempotent. A raw record with
`usdPrice` 5 normalizes to a token with price 5, but normalizing that token
again yields price 0 (the token carries `price`, while `transformToken`
reads `usdPrice`/`priceUsd`), so `normalize (normalize raw)` differs from
`normalize raw`. -/
theorem c9_counterexample :
    transformToken { usdPrice := .num (.fin 5) } =
      some ({ price := .fin 5 } : Token) ∧
    transformToken (tokenToRaw ({ price := .fin 5 } : Token)) =
      some ({} : Token) ∧
    ({} : Token).price ≠ ({ price := .fin 5 } : Token).price :=
  ⟨rfl, rfl, by decide⟩

/-- C9 (amended): a second application of normalize to a produced token
preserves `id`, `symbol` and `name`, clamps a NaN `liquidity` to 0 and keeps
it otherwise, and resets `price`, `image`, `marketCap`, `priceChange24h` and
`volume24h` to their defaults (0, "", 0, 0, 0), because the Token shape does
not carry the raw candidate field names (`usdPrice`, `icon`, `mcap`,
`stats24h`). -/
theorem c9_amended (raw : RawRecord) (tok : Token)
    (h : transformToken raw = some tok) :
    ∃ tok2, transformToken (tokenToRaw tok) = some tok2 ∧
      tok2.id = tok.id ∧ tok2.symbol = tok.symbol ∧ tok2.name = tok.name ∧
      tok2.price = .fin 0 ∧ tok2.image = "" ∧
      tok2.liquidity = (if tok.liquidity = .nan then .fin 0 else tok.liquidity) ∧
      tok2.marketCap = .fin 0 ∧ tok2.priceChange24h = .num (.fin 0) ∧
      tok2.volume24h = .fin 0 := by
  obtain ⟨hid, hsym, hu, hn⟩ := transformToken_range h
  exact ⟨_, transformToken_tokenToRaw tok hid hsym hu hn,
    rfl, rfl, rfl, rfl, rfl, rfl, rfl, rfl, rfl⟩

/-- Witness for C9 (amended) at a concrete produced token. -/
theorem c9_amended_witness :
    ∃ tok2, transformToken (tokenToRaw ({ price := .fin 5 } : Token)) =
        some tok2 ∧
      tok2.id = ({ price := .fin 5 } : Token).id ∧
      tok2.symbol = ({ price := .fin 5 } : Token).symbol ∧
      tok2.name = ({ price := .fin 5 } : Token).name ∧
      tok2.price = .fin 0 ∧ tok2.image = "" ∧
      tok2.liquidity = (if ({ price := .fin 5 } : Token).liquidity = .nan
        then .fin 0 else ({ price := .fin 5 } : Token).liquidity) ∧
      tok2.marketCap = .fin 0 ∧ tok2.priceChange24h = .num (.fin 0) ∧
      tok2.volume24h = .fin 0 :=
  c9_amended { usdPrice := .num (.fin 5) } { price := .fin 5 } rfl

theorem result_tokens_sublist (ts : List Token) (o : QueryOpts) :
    List.Sublist (filterAndSortTokens ts o).tokens
      ((ts.filter (fun t => JNum.jge t.price (.fin 0))).mergeSort
        (sortLe (effSortBy o) (effOrder o))) := by
  unfold filterAndSortTokens jsSlice
  exact (List.drop_sublist _ _).trans (List.take_sublist _ _)

/-- C7: the query filter retains exactly the tokens whose price compares
`>= 0` (so `-0.01` is dropped and `0` survives), and the returned `total` is
the filtered count before pagination. -/
theorem c7_filter :
    (∀ (ts : List Token) (o : QueryOpts),
      (filterAndSortTokens ts o).total =
        (ts.filter (fun t => JNum.jge t.price (.fin 0))).length) ∧
    (∀ q : ℚ, JNum.jge (.fin q) (.fin 0) = true ↔ 0 ≤ q) ∧
    (∀ (ts : List Token) (o : QueryOpts) (t : Token),
      t ∈ (filterAndSortTokens ts o).tokens → JNum.jge t.price (.fin 0) = true) ∧
    filterAndSortTokens
        [{ id := "n", price := .fin (-1/100) }, { id := "z", price := .fin 0 }] {} =
      { tokens := [{ id := "z", price := .fin 0 }], nextCursor := none,
        total := 1, limit := 50 } := by
  refine ⟨fun ts o => rfl, fun q => by simp [JNum.jge], ?_, ?_⟩
  · intro ts o t ht
    have hs := (result_tokens_sublist ts o).mem ht
    exact (List.mem_filter.mp (List.mem_mergeSort.mp hs)).2
  · simp [filterAndSortTokens, List.mergeSort, JNum.jge, jsSlice, startOf,
      effCursor, effLimit, effSortBy, effOrder, strOr]
    norm_num

/-- Witness for C7's membership conjunct at a concrete query. -/
theorem c7_filter_witness :
    JNum.jge ({ id := "z", price := .fin 0 } : Token).price (.fin 0) = true :=
  c7_filter.2.2.1 [{ id := "z", price := .fin 0 }] {}
    { id := "z", price := .fin 0 } (by
      simp [filterAndSortTokens, List.mergeSort, JNum.jge, jsSlice, startOf,
        effCursor, effLimit, effSortBy, effOrder, strOr])

/-- C10 (implicit): a falsy `limit` (0, `NaN`, absent) falls back to the
default 50: the query result is the one for limit 50, the returned `limit`
field is 50, and a zero-limit request can never produce an empty page when
the filtered collection is nonempty and no cursor is supplied. -/
theorem c10_limit_default (ts : List Token) (sb ord cur : Option String) :
    filterAndSortTokens ts { sortBy := sb, order := ord, limit := some 0, cursor := cur } =
      filterAndSortTokens ts { sortBy := sb, order := ord, limit := some 50, cursor := cur } ∧
    filterAndSortTokens ts { sortBy := sb, order := ord, limit := none, cursor := cur } =
      filterAndSortTokens ts { sortBy := sb, order := ord, limit := some 50, cursor := cur } ∧
    (filterAndSortTokens ts
      { sortBy := sb, order := ord, limit := some 0, cursor := cur }).limit = 50 ∧
    (cur = none → ts.filter (fun t => JNum.jge t.price (.fin 0)) ≠ [] →
      (filterAndSortTokens ts
        { sortBy := sb, order := ord, limit := some 0, cursor := cur }).tokens ≠ []) := by
  refine ⟨rfl, rfl, rfl, ?_⟩
  intro hc hne
  subst hc
  have hfl : 0 < (ts.filter (fun t => JNum.jge t.price (.fin 0))).length :=
    List.length_pos.mpr hne
  simp only [filterAndSortTokens, jsSlice, effCursor, startOf, effLimit,
    List.length_mergeSort]
  intro htk
  have hlen := congrArg List.length htk
  simp only [List.length_drop, List.length_take, List.length_mergeSort,
    List.length_nil] at hlen
  norm_num at hlen
  obtain ⟨t0, ht0⟩ := List.exists_mem_of_ne_nil _ hne
  obtain ⟨hmem, hpred⟩ := List.mem_filter.mp ht0
  rw [hlen t0 hmem] at hpred
  cases hpred

/-- Witness for C10 at a concrete one-token collection. -/
theorem c10_limit_default_witness :
    (filterAndSortTokens [({} : Token)]
      { sortBy := none, order := none, limit := some 0, cursor := none }).tokens ≠ [] :=
  (c10_limit_default [({} : Token)] none none none).2.2.2 rfl (by decide)

theorem take_min (l : List α) (n : ℕ) : l.take n = l.take (min n l.length) := by
  by_cases h : n ≤ l.length
  · rw [min_eq_left h]
  · rw [min_eq_right (by omega), List.take_length, List.take_of_length_le (by omega)]

/-- For a nonnegative start and length, the JS slice `[s, s+lim)` is
drop-then-take. -/
theorem jsSlice_nonneg {α : Type} (l : List α) (s lim : ℤ) (hs : 0 ≤ s)
    (hl : 0 ≤ lim) :
    jsSlice l s (s + lim) = (l.drop s.toNat).take lim.toNat := by
  simp only [jsSlice]
  rw [if_neg (by omega), if_neg (by omega), List.take_drop]
  by_cases hsl : s ≤ (l.length : ℤ)
  · have h1 : (min s (l.length : ℤ)).toNat = s.toNat := by omega
    have h2 : (min (s + lim) (l.length : ℤ)).toNat =
        min (s.toNat + lim.toNat) l.length := by omega
    rw [h1, h2, take_min l (s.toNat + lim.toNat)]
  · have h1 : (min s (l.length : ℤ)).toNat = l.length := by omega
    have h2 : (min (s + lim) (l.length : ℤ)).toNat = l.length := by omega
    rw [h1, h2, List.take_length, List.drop_eq_nil_of_le (Nat.le_refl _),
      List.drop_eq_nil_of_le (by simp [List.length_take]; omega)]

/-- C6: the cursor decodes to a start offset — 0 when absent or undecodable,
with a malformed cursor silently treated as offset 0 and never surfaced; the
page is the slice `[start, start+limit)` of the sorted filtered sequence;
`nextCursor` encodes `start+limit` exactly when `start+limit` is below the
filtered total; and the `limit=2` round-trip lands on items 2 and 3. -/
theorem c6_pagination :
    (∀ (sb ord : Option String) (lim : Option ℤ),
      startOf (effCursor (qopts sb ord lim none)) = 0) ∧
    (∀ s : String, decodeCursor s = none → startOf (some s) = 0) ∧
    (∀ (ts : List Token) (sb ord : Option String) (lim : Option ℤ) (s : String),
      decodeCursor s = none →
      filterAndSortTokens ts (qopts sb ord lim (some s)) =
        filterAndSortTokens ts (qopts sb ord lim none)) ∧
    (∀ (ts : List Token) (o : QueryOpts),
      0 ≤ startOf (effCursor o) → 0 ≤ effLimit o →
      (filterAndSortTokens ts o).tokens =
        ((sortedFiltered ts o).drop (startOf (effCursor o)).toNat).take
          (effLimit o).toNat) ∧
    (∀ (ts : List Token) (o : QueryOpts),
      (filterAndSortTokens ts o).nextCursor =
        if startOf (effCursor o) + effLimit o <
            ((ts.filter (fun t => JNum.jge t.price (.fin 0))).length : ℤ)
        then some (encodeCursor (startOf (effCursor o) + effLimit o))
        else none) ∧
    (∀ (ts : List Token) (sb ord : Option String),
      4 ≤ (sortedFiltered ts (qopts sb ord (some 2) none)).length →
      (filterAndSortTokens ts (qopts sb ord (some 2) none)).nextCursor =
        some (encodeCursor 2) ∧
      decodeCursor (encodeCursor 2) = some 2 ∧
      (filterAndSortTokens ts
          (qopts sb ord (some 2) (some (encodeCursor 2)))).tokens =
        ((sortedFiltered ts (qopts sb ord (some 2) none)).drop 2).take 2) := by
  refine ⟨fun sb ord lim => rfl, ?_, ?_, ?_, fun ts o => rfl, ?_⟩
  · intro s h
    simp [startOf, h]
  · intro ts sb ord lim s h
    by_cases hs : s = ""
    · subst hs
      rfl
    · have h0 : startOf (effCursor (qopts sb ord lim (some s))) = 0 := by
        simp [qopts, effCursor, hs, startOf, h]
      simp only [filterAndSortTokens, h0]
      rfl
  · intro ts o h1 h2
    exact jsSlice_nonneg (sortedFiltered ts o) _ _ h1 h2
  · intro ts sb ord h4
    have hlen : 4 ≤ (ts.filter (fun t => JNum.jge t.price (.fin 0))).length := by
      simpa [sortedFiltered, List.length_mergeSort] using h4
    refine ⟨?_, rfl, ?_⟩
    · have hc : ((0 : ℤ) + 2 <
          ((ts.filter (fun t => JNum.jge t.price (.fin 0))).length : ℤ)) := by
        omega
      show (if (0 : ℤ) + 2 <
          ((ts.filter (fun t => JNum.jge t.price (.fin 0))).length : ℤ)
        then some (encodeCursor ((0 : ℤ) + 2)) else none) = some (encodeCursor 2)
      rw [if_pos hc]
      norm_num
    · exact jsSlice_nonneg
        (sortedFiltered ts (qopts sb ord (some 2) (some (encodeCursor 2))))
        2 2 (by omega) (by omega)

/-- Witness for C6 at a concrete four-token collection. -/
theorem c6_pagination_witness : decodeCursor (encodeCursor 2) = some 2 :=
  (c6_pagination.2.2.2.2.2
    [{ id := "1", volume24h := .fin 8 }, { id := "2", volume24h := .fin 6 },
     { id := "3", volume24h := .fin 4 }, { id := "4", volume24h := .fin 2 }]
    none none (by simp [sortedFiltered, List.length_mergeSort]; decide)).2.1

theorem sortLe_fin {sb ord : String} {a b : Token} {qa qb : ℚ}
    (ha : sortKey sb a = .fin qa) (hb : sortKey sb b = .fin qb) :
    sortLe sb ord a b =
      (if ord = "asc" then decide (qa ≤ qb) else decide (qb ≤ qa)) := by
  unfold sortLe
  rw [ha, hb]
  by_cases h : ord = "asc" <;>
    simp only [h, if_true, if_false, ite_true, ite_false, JNum.sub] <;>
    rw [decide_eq_decide] <;>
    exact sub_nonpos

theorem sortLe_trans {sb ord : String} (a b c : {t : Token // finKey sb t})
    (hab : sortLe sb ord a.val b.val = true)
    (hbc : sortLe sb ord b.val c.val = true) :
    sortLe sb ord a.val c.val = true := by
  obtain ⟨qa, hqa⟩ := a.property
  obtain ⟨qb, hqb⟩ := b.property
  obtain ⟨qc, hqc⟩ := c.property
  rw [sortLe_fin hqa hqb] at hab
  rw [sortLe_fin hqb hqc] at hbc
  rw [sortLe_fin hqa hqc]
  by_cases h : ord = "asc" <;> simp [h] at hab hbc ⊢ <;> linarith

theorem sortLe_total {sb ord : String} (a b : {t : Token // finKey sb t}) :
    (sortLe sb ord a.val b.val || sortLe sb ord b.val a.val) = true := by
  obtain ⟨qa, hqa⟩ := a.property
  obtain ⟨qb, hqb⟩ := b.property
  rw [sortLe_fin hqa hqb, sortLe_fin hqb hqa]
  by_cases h : ord = "asc" <;> simp [h] <;> exact le_total _ _

/-- When every token's sort key is a finite number, the sorted sequence is
pairwise ordered by the key: ascending for `order = "asc"`, descending for
any other effective order. -/
theorem sortedFiltered_pairwise (ts : List Token) (o : QueryOpts)
    (hfin : ∀ t ∈ ts, finKey (effSortBy o) t) :
    (sortedFiltered ts o).Pairwise (fun a b =>
      if effOrder o = "asc" then
        finValue (sortKey (effSortBy o) a) ≤ finValue (sortKey (effSortBy o) b)
      else
        finValue (sortKey (effSortBy o) b) ≤ finValue (sortKey (effSortBy o) a)) := by
  have hfin' : ∀ x : {t // t ∈ ts.filter (fun t => JNum.jge t.price (.fin 0))},
      finKey (effSortBy o) x.val :=
    fun x => hfin x.val (List.mem_filter.mp x.property).1
  have hmain := @List.map_mergeSort {t : Token // finKey (effSortBy o) t} Token
    (fun a b => sortLe (effSortBy o) (effOrder o) a.val b.val)
    (sortLe (effSortBy o) (effOrder o)) Subtype.val
    ((ts.filter (fun t => JNum.jge t.price (.fin 0))).attach.map
      (fun x => ⟨x.val, hfin' x⟩))
    (fun a _ b _ => rfl)
  rw [List.map_map] at hmain
  rw [show (Subtype.val ∘ fun x : {t // t ∈ ts.filter (fun t => JNum.jge t.price (.fin 0))} =>
      (⟨x.val, hfin' x⟩ : {t : Token // finKey (effSortBy o) t})) =
      (fun x : {t // t ∈ ts.filter (fun t => JNum.jge t.price (.fin 0))} => x.val)
    from rfl] at hmain
  rw [List.attach_map_subtype_val] at hmain
  have hsorted := @List.sorted_mergeSort {t : Token // finKey (effSortBy o) t}
    (fun a b => sortLe (effSortBy o) (effOrder o) a.val b.val)
    (fun a b c hab hbc => @sortLe_trans (effSortBy o) (effOrder o) a b c hab hbc)
    (fun a b => @sortLe_total (effSortBy o) (effOrder o) a b)
    ((ts.filter (fun t => JNum.jge t.price (.fin 0))).attach.map
      (fun x => ⟨x.val, hfin' x⟩))
  have himp : ∀ {a b : {t : Token // finKey (effSortBy o) t}},
      sortLe (effSortBy o) (effOrder o) a.val b.val = true →
      (if effOrder o = "asc" then
        finValue (sortKey (effSortBy o) a.val) ≤ finValue (sortKey (effSortBy o) b.val)
      else
        finValue (sortKey (effSortBy o) b.val) ≤ finValue (sortKey (effSortBy o) a.val)) := by
    intro a b h
    obtain ⟨qa, hqa⟩ := a.property
    obtain ⟨qb, hqb⟩ := b.property
    rw [sortLe_fin hqa hqb] at h
    rw [hqa, hqb]
    by_cases hord : effOrder o = "asc" <;> simp [hord, finValue] at h ⊢ <;> exact h
  simp only [sortedFiltered]
  rw [← hmain]
  exact hsorted.map Subtype.val (fun a b h => himp h)

/-- C8: the sort key is `price` exactly when `sortBy = "price"` and
`volume24h` otherwise; an absent order defaults to `"desc"`; the sorted
sequence is a permutation of the filtered tokens, ordered ascending under
`"asc"` and descending under every other order (for finite keys — a missing
key is not representable in the merged-token model, and a NaN key compares
as equal per ECMA `SortCompare`). -/
theorem c8_sort :
    (∀ t : Token, sortKey "price" t = t.price) ∧
    (∀ (s : String) (t : Token), s ≠ "price" → sortKey s t = t.volume24h) ∧
    (∀ (sb : Option String) (lim : Option ℤ) (cur : Option String),
      effOrder (qopts sb none lim cur) = "desc") ∧
    (∀ (ts : List Token) (o : QueryOpts),
      List.Perm (sortedFiltered ts o)
        (ts.filter (fun t => JNum.jge t.price (.fin 0)))) ∧
    (∀ (ts : List Token) (o : QueryOpts),
      (∀ t ∈ ts, finKey (effSortBy o) t) →
      (sortedFiltered ts o).Pairwise (fun a b =>
        if effOrder o = "asc" then
          finValue (sortKey (effSortBy o) a) ≤ finValue (sortKey (effSortBy o) b)
        else
          finValue (sortKey (effSortBy o) b) ≤
            finValue (sortKey (effSortBy o) a))) := by
  refine ⟨fun t => rfl, ?_, fun sb lim cur => rfl,
    fun ts o => List.mergeSort_perm _ _,
    fun ts o hfin => sortedFiltered_pairwise ts o hfin⟩
  intro s t hs
  simp [sortKey, hs]

/-- Witness for C8 at a concrete non-price sort key. -/
theorem c8_sort_witness :
    sortKey "volume" ({} : Token) = ({} : Token).volume24h :=
  c8_sort.2.1 "volume" {} (by decide)

theorem firstSeen_mem_aux (l acc : List String) (k : String) :
    (k ∈ l.foldl (fun acc k => if k ∈ acc then acc else acc ++ [k]) acc) ↔
      k ∈ acc ∨ k ∈ l := by
  induction l generalizing acc with
  | nil => simp
  | cons a l ih =>
    rw [List.foldl_cons, ih]
    by_cases h : a ∈ acc
    · rw [if_pos h]
      constructor
      · rintro (hk | hk)
        · exact Or.inl hk
        · exact Or.inr (List.mem_cons_of_mem a hk)
      · rintro (hk | hk)
        · exact Or.inl hk
        · rcases List.mem_cons.mp hk with rfl | hk2
          · exact Or.inl h
          · exact Or.inr hk2
    · rw [if_neg h]
      constructor
      · rintro (hk | hk)
        · rcases List.mem_append.mp hk with hk1 | hk1
          · exact Or.inl hk1
          · rcases List.mem_cons.mp hk1 with rfl | hk2
            · exact Or.inr (List.mem_cons_self _ _)
            · exact absurd hk2 (List.not_mem_nil k)
        · exact Or.inr (List.mem_cons_of_mem a hk)
      · rintro (hk | hk)
        · exact Or.inl (List.mem_append.mpr (Or.inl hk))
        · rcases List.mem_cons.mp hk with rfl | hk2
          · exact Or.inl (List.mem_append.mpr (Or.inr (List.mem_cons_self _ _)))
          · exact Or.inr hk2

theorem mem_firstSeen (l : List String) (k : String) :
    k ∈ firstSeen l ↔ k ∈ l := by
  unfold firstSeen
  rw [firstSeen_mem_aux]
  simp

theorem firstSeen_nodup_aux (l acc : List String) (hacc : acc.Nodup) :
    (l.foldl (fun acc k => if k ∈ acc then acc else acc ++ [k]) acc).Nodup := by
  induction l generalizing acc with
  | nil => exact hacc
  | cons a l ih =>
    rw [List.foldl_cons]
    by_cases h : a ∈ acc
    · rw [if_pos h]
      exact ih acc hacc
    · rw [if_neg h]
      refine ih _ ?_
      simp [List.nodup_append, hacc, h]

theorem firstSeen_nodup (l : List String) : (firstSeen l).Nodup :=
  firstSeen_nodup_aux l [] (by simp)

theorem firstSeen_append_mem (l : List String) (k : String) (h : k ∈ l) :
    firstSeen (l ++ [k]) = firstSeen l := by
  unfold firstSeen
  rw [List.foldl_append, List.foldl_cons, List.foldl_nil,
    if_pos ((firstSeen_mem_aux l [] k).mpr (Or.inr h))]

theorem firstSeen_append_not_mem (l : List String) (k : String) (h : k ∉ l) :
    firstSeen (l ++ [k]) = firstSeen l ++ [k] := by
  unfold firstSeen
  rw [List.foldl_append, List.foldl_cons, List.foldl_nil,
    if_neg (fun hc => by
      rcases (firstSeen_mem_aux l [] k).mp hc with h0 | h0
      · exact absurd h0 (List.not_mem_nil k)
      · exact h h0)]

theorem lookup_map_pair (ks : List String) (f : String → Token) (k : String) :
    ((ks.map (fun x => (x, f x))).lookup k) =
      if k ∈ ks then some (f k) else none := by
  induction ks with
  | nil => rfl
  | cons a ks ih =>
    by_cases h : k = a
    · subst h
      simp [List.lookup]
    · have hba : (k == a) = false := beq_eq_false_iff_ne.mpr h
      simp [List.lookup, hba, ih, List.mem_cons, h]

theorem combineTok_key (ex tok : Token) :
    mergeKey (combineTok ex tok) = mergeKey ex := rfl

theorem foldl_combineTok_key (rest : List Token) (t0 : Token) :
    mergeKey (rest.foldl combineTok t0) = mergeKey t0 := by
  induction rest generalizing t0 with
  | nil => rfl
  | cons a rest ih => rw [List.foldl_cons, ih, combineTok_key]

theorem groupFold_append_ne (ts : List Token) (t : Token) (k : String)
    (h : ¬(mergeKey t = k)) :
    groupFold (ts ++ [t]) k = groupFold ts k := by
  unfold groupFold
  rw [List.filter_append]
  simp [List.filter_cons, h]

theorem groupFold_append_eq (ts : List Token) (t : Token)
    (hmem : mergeKey t ∈ ts.map mergeKey) :
    groupFold (ts ++ [t]) (mergeKey t) =
      combineTok (groupFold ts (mergeKey t)) t := by
  unfold groupFold
  rw [List.filter_append]
  have hone : [t].filter (fun x => mergeKey x = mergeKey t) = [t] := by simp
  rw [hone]
  have hne : ts.filter (fun x => mergeKey x = mergeKey t) ≠ [] := by
    obtain ⟨t0, ht0, hk⟩ := List.mem_map.mp hmem
    intro hc
    rw [List.filter_eq_nil_iff] at hc
    exact hc t0 ht0 (by simp [hk])
  cases hf : ts.filter (fun x => mergeKey x = mergeKey t) with
  | nil => exact absurd hf hne
  | cons t0 rest =>
    simp only [List.cons_append]
    rw [List.foldl_append]
    rfl

theorem groupFold_append_new (ts : List Token) (t : Token)
    (hmem : mergeKey t ∉ ts.map mergeKey) :
    groupFold (ts ++ [t]) (mergeKey t) = t := by
  unfold groupFold
  have h0 : ts.filter (fun x => mergeKey x = mergeKey t) = [] := by
    rw [List.filter_eq_nil_iff]
    intro a ha hpa
    exact hmem (List.mem_map.mpr ⟨a, ha, by simpa using hpa⟩)
  rw [List.filter_append, h0]
  simp

theorem groupFold_key_of_mem (ts : List Token) (k : String)
    (hmem : k ∈ ts.map mergeKey) : mergeKey (groupFold ts k) = k := by
  unfold groupFold
  have hne : ts.filter (fun x => mergeKey x = k) ≠ [] := by
    obtain ⟨t0, ht0, hk⟩ := List.mem_map.mp hmem
    intro hc
    rw [List.filter_eq_nil_iff] at hc
    exact hc t0 ht0 (by simp [hk])
  cases hf : ts.filter (fun x => mergeKey x = k) with
  | nil => exact absurd hf hne
  | cons t0 rest =>
    have ht0 : mergeKey t0 = k := by
      have := List.mem_filter.mp (hf ▸ List.mem_cons_self t0 rest)
      simpa using this.2
    rw [foldl_combineTok_key, ht0]

theorem foldl_mergeStep_eq (ts : List Token) :
    ts.foldl mergeStep [] = specState ts := by
  induction ts using List.reverseRecOn with
  | nil => rfl
  | append_singleton ts t ih =>
    rw [List.foldl_append, List.foldl_cons, List.foldl_nil, ih]
    by_cases hmem : mergeKey t ∈ ts.map mergeKey
    · have hlook : (specState ts).lookup (mergeKey t) =
          some (groupFold ts (mergeKey t)) := by
        unfold specState
        rw [lookup_map_pair, if_pos ((mem_firstSeen _ _).mpr hmem)]
      simp only [mergeStep, hlook, Option.isSome_some, if_true]
      unfold specState
      rw [show (ts ++ [t]).map mergeKey = ts.map mergeKey ++ [mergeKey t] by simp,
        firstSeen_append_mem _ _ hmem, List.map_map]
      refine List.map_congr_left ?_
      intro k' hk'
      by_cases hk : k' = mergeKey t
      · subst hk
        simp [groupFold_append_eq ts t hmem]
      · simp only [Function.comp_apply]
        rw [if_neg hk, groupFold_append_ne ts t k' (fun hc => hk hc.symm)]
    · have hlook : (specState ts).lookup (mergeKey t) = none := by
        unfold specState
        rw [lookup_map_pair, if_neg (fun hc => hmem ((mem_firstSeen _ _).mp hc))]
      simp only [mergeStep, hlook, Option.isSome_none, Bool.false_eq_true, if_false]
      unfold specState
      rw [show (ts ++ [t]).map mergeKey = ts.map mergeKey ++ [mergeKey t] by simp,
        firstSeen_append_not_mem _ _ hmem, List.map_append]
      congr 1
      · refine List.map_congr_left ?_
        intro k' hk'
        have hk : ¬(mergeKey t = k') := by
          intro hc
          exact hmem (hc ▸ (mem_firstSeen _ _).mp hk')
        rw [groupFold_append_ne ts t k' hk]
      · simp only [List.map_cons, List.map_nil]
        rw [groupFold_append_new ts t hmem]

theorem mergeTokens_eq_mergeSpec (ts : List Token) :
    mergeTokens ts = mergeSpec ts := by
  unfold mergeTokens mergeSpec
  rw [foldl_mergeStep_eq]
  unfold specState
  rw [List.map_map]
  rfl

theorem mergeTokens_keys_nodup (ts : List Token) :
    ((mergeTokens ts).map mergeKey).Nodup := by
  rw [mergeTokens_eq_mergeSpec]
  unfold mergeSpec
  rw [List.map_map]
  have hcong : (firstSeen (ts.map mergeKey)).map (mergeKey ∘ groupFold ts) =
      (firstSeen (ts.map mergeKey)).map id := by
    refine List.map_congr_left ?_
    intro k hk
    exact groupFold_key_of_mem ts k ((mem_firstSeen _ _).mp hk)
  rw [hcong, List.map_id]
  exact firstSeen_nodup _

theorem orZero_fin (q : ℚ) : (JNum.fin q).orZero = JNum.fin q := by
  by_cases h : q = 0
  · subst h
    rfl
  · simp [JNum.orZero, JNum.truthy, h]

/-- C1: merge folds tokens sharing a key into one entry — output in
first-seen key order, each entry the in-order fold of its occurrences
(`mergeTokens = mergeSpec`); the combine step keeps the first-seen `id`,
`symbol`, `name`, `image` and `priceChange24h`, sums `volume24h`, takes the
max of `liquidity` and `marketCap`, and replaces `price` by the incoming
one exactly when it is non-zero and exceeds the existing price or the
existing price is zero; and the claim's two-token example merges to the
stated single token. -/
theorem c1_merge :
    (∀ ts : List Token, mergeTokens ts = mergeSpec ts) ∧
    (∀ ex tok : Token,
      (combineTok ex tok).id = ex.id ∧ (combineTok ex tok).symbol = ex.symbol ∧
      (combineTok ex tok).name = ex.name ∧ (combineTok ex tok).image = ex.image ∧
      (combineTok ex tok).priceChange24h = ex.priceChange24h) ∧
    (∀ (ex tok : Token) (qa qb : ℚ), ex.volume24h = .fin qa →
      tok.volume24h = .fin qb → (combineTok ex tok).volume24h = .fin (qa + qb)) ∧
    (∀ (ex tok : Token) (qa qb : ℚ), ex.liquidity = .fin qa →
      tok.liquidity = .fin qb →
      (combineTok ex tok).liquidity = .fin (max qa qb)) ∧
    (∀ (ex tok : Token) (qa qb : ℚ), ex.marketCap = .fin qa →
      tok.marketCap = .fin qb →
      (combineTok ex tok).marketCap = .fin (max qa qb)) ∧
    (∀ (ex tok : Token) (qa qb : ℚ), ex.price = .fin qa → tok.price = .fin qb →
      (combineTok ex tok).price =
        (if qb ≠ 0 ∧ (qa = 0 ∨ qa < qb) then JNum.fin qb else JNum.fin qa)) ∧
    mergeTokens
        [{ id := "a1", symbol := "X", price := .fin 1, volume24h := .fin 10,
           liquidity := .fin 5, marketCap := .fin 100 },
         { id := "a2", symbol := "x", price := .fin 2, volume24h := .fin 20,
           liquidity := .fin 3, marketCap := .fin 200 }] =
      [{ id := "a1", symbol := "X", price := .fin 2, volume24h := .fin 30,
         liquidity := .fin 5, marketCap := .fin 200 }] := by
  refine ⟨mergeTokens_eq_mergeSpec, fun ex tok => ⟨rfl, rfl, rfl, rfl, rfl⟩,
    ?_, ?_, ?_, ?_, by decide⟩
  · intro ex tok qa qb ha hb
    simp only [combineTok, ha, hb, orZero_fin]
    rfl
  · intro ex tok qa qb ha hb
    simp only [combineTok, ha, hb, orZero_fin]
    rfl
  · intro ex tok qa qb ha hb
    simp only [combineTok, ha, hb, orZero_fin]
    rfl
  · intro ex tok qa qb ha hb
    simp only [combineTok, ha, hb]
    by_cases h1 : qb = 0 <;> by_cases h2 : qa = 0 <;> by_cases h3 : qa < qb <;>
      simp [JNum.truthy, JNum.jgt, h1, h2, h3]

/-- Witness for C1's volume-summing conjunct at concrete tokens. -/
theorem c1_merge_witness :
    (combineTok { volume24h := .fin 10 } { volume24h := .fin 20 }).volume24h =
      JNum.fin (10 + 20) :=
  c1_merge.2.2.1 { volume24h := .fin 10 } { volume24h := .fin 20 } 10 20 rfl rfl

/-- C2 counterexample: the claim says a token whose symbol is the sentinel
"N/A" is keyed by `lowercase(id)`, but the code keys it by
`lowercase("N/A") = "n/a"` — the sentinel check does not exist at
src/backend.js:81. -/
theorem c2_counterexample :
    mergeKey { id := "ABC", symbol := "N/A" } = "n/a" ∧
    asciiLower ({ id := "ABC", symbol := "N/A" } : Token).id = "abc" ∧
    ("n/a" : String) ≠ "abc" :=
  ⟨rfl, rfl, by decide⟩

/-- C2 (amended): the merge key is `lowercase(symbol)` whenever the symbol
is a nonempty string — including the sentinel "N/A" — and `lowercase(id)`
only when the symbol is empty; the key is a function of the token, and the
merged collection contains at most one token per key. -/
theorem c2_amended :
    (∀ tok : Token, tok.symbol ≠ "" → mergeKey tok = asciiLower tok.symbol) ∧
    (∀ tok : Token, tok.symbol = "" → mergeKey tok = asciiLower tok.id) ∧
    (∀ ts : List Token, ((mergeTokens ts).map mergeKey).Nodup) := by
  refine ⟨?_, ?_, mergeTokens_keys_nodup⟩
  · intro tok h
    unfold mergeKey
    rw [if_neg h]
  · intro tok h
    unfold mergeKey
    rw [if_pos h]

/-- Witness for C2 (amended) at the sentinel symbol. -/
theorem c2_amended_witness : mergeKey ({} : Token) = asciiLower "N/A" :=
  c2_amended.1 {} (by decide)

end Backend
